import Mathlib

/-!
Verification development for the SimpleModularCoder repository.

The repository drives an LLM through a tool-calling loop over a sandboxed
workspace (src/src/tools.py, src/src/agent.py, src/src/session.py) and
supervises an iterative build-test-retry cycle (src/run_basic.py).

This file gives a shallow embedding of the data model and operations of that
code: Python strings are Lean Strings (manipulated as lists of characters),
the in-memory filesystem is an association list from absolute path to file
content, and the stdlib functions used by the code (os.path.join,
os.path.normpath, str.count, str.replace, json.loads, re.sub on the three
fixed patterns of agent.py) are modelled for ASCII text.
-/

namespace SMC

/-! ## Python character classes (ASCII model)

Python `str.strip()` strips the six ASCII whitespace characters (plus
Unicode spaces, out of scope for this ASCII model); the regex class `\s`
matches the same six ASCII characters; JSON whitespace is the four-character
set of RFC 8259, which is what `json.loads` skips around a document. -/

def pyIsSpace (c : Char) : Bool :=
  c = ' ' || c = '\t' || c = '\n' || c = '\r' || c = '\x0b' || c = '\x0c'

def jsonWS (c : Char) : Bool :=
  c = ' ' || c = '\t' || c = '\n' || c = '\r'

/-- `str.strip()` on a list of characters: drop ASCII whitespace from both ends. -/
def pyStripL (s : List Char) : List Char :=
  ((s.dropWhile pyIsSpace).reverse.dropWhile pyIsSpace).reverse

/-- `str.rstrip()` on a list of characters. -/
def pyRStripL (s : List Char) : List Char :=
  (s.reverse.dropWhile pyIsSpace).reverse

def pyStrip (s : String) : String := String.mk (pyStripL s.toList)

/-! ## Python substring test, count and replace

`sub in s` (CPython substring containment), `s.count(sub)`
(non-overlapping occurrences, `len(s)+1` for the empty pattern) and
`s.replace(old, new)` (left-to-right non-overlapping substitution). -/

def pySubstrL (sub : List Char) : List Char → Bool
  | [] => sub.isEmpty
  | c :: cs => sub.isPrefixOf (c :: cs) || pySubstrL sub cs

def pySubstr (sub s : String) : Bool := pySubstrL sub.toList s.toList

/-- Fuel-driven scan for `str.count`; fuel `s.length + 1` is always enough
because each step consumes at least one character. -/
def pyCountF (sub : List Char) : Nat → List Char → Nat
  | 0, _ => 0
  | _ + 1, [] => 0
  | f + 1, c :: cs =>
    if sub.isPrefixOf (c :: cs) then
      1 + pyCountF sub f (cs.drop (sub.length - 1))
    else
      pyCountF sub f cs

def pyCountL (sub s : List Char) : Nat :=
  if sub.isEmpty then s.length + 1 else pyCountF sub (s.length + 1) s

def pyCount (content sub : String) : Nat := pyCountL sub.toList content.toList

/-- Fuel-driven scan for `str.replace` with a non-empty pattern. -/
def pyReplaceF (sub repl : List Char) : Nat → List Char → List Char
  | 0, s => s
  | _ + 1, [] => []
  | f + 1, c :: cs =>
    if sub.isPrefixOf (c :: cs) then
      repl ++ pyReplaceF sub repl f (cs.drop (sub.length - 1))
    else
      c :: pyReplaceF sub repl f cs

def pyReplaceL (sub repl s : List Char) : List Char :=
  if sub.isEmpty then repl ++ s.flatMap (fun c => c :: repl)
  else pyReplaceF sub repl (s.length + 1) s

def pyReplace (s sub repl : String) : String :=
  String.mk (pyReplaceL sub.toList repl.toList s.toList)

/-! ## POSIX path model (os.path.join / normpath / abspath / basename /
commonpath as used by tools.py) -/

/-- Split a character list on a separator character (like `str.split(sep)`). -/
def splitOnCharAux (sep : Char) : List Char → List Char → List (List Char)
  | [], acc => [acc.reverse]
  | c :: cs, acc =>
    if c = sep then acc.reverse :: splitOnCharAux sep cs []
    else splitOnCharAux sep cs (c :: acc)

def splitOnChar (sep : Char) (s : List Char) : List (List Char) :=
  splitOnCharAux sep s []

/-- `os.path.join(a, b)` for POSIX with two components: an absolute second
component discards the first; otherwise a separator is inserted unless the
first component is empty or already ends with one. -/
def pyJoinL (a b : List Char) : List Char :=
  if b.head? = some '/' then b
  else if a = [] || a.getLast? = some '/' then a ++ b
  else a ++ '/' :: b

/-- One component step of `posixpath.normpath`: the accumulator is the
component stack with its top at the head. Empty and `.` components are
dropped; `..` pops a non-`..` top, is kept at the top of a relative path,
and is dropped at the root of an absolute path. -/
def normStep (isAbs : Bool) (acc : List (List Char)) (comp : List Char) :
    List (List Char) :=
  if comp = [] || comp = ['.'] then acc
  else if comp ≠ ['.', '.'] then comp :: acc
  else
    match acc with
    | [] => if isAbs then [] else [['.', '.']]
    | q :: qs => if q = ['.', '.'] then comp :: acc else qs

/-- `posixpath.normpath` on a list of characters. One leading slash is kept,
exactly two leading slashes are kept as two (POSIX special case), three or
more collapse to one. -/
def pyNormpathL (p : List Char) : List Char :=
  if p = [] then ['.']
  else
    let slashes : Nat :=
      if ['/', '/'].isPrefixOf p ∧ ¬ ['/', '/', '/'].isPrefixOf p then 2
      else if ['/'].isPrefixOf p then 1
      else 0
    let comps := splitOnChar '/' p
    let stack := comps.foldl (normStep (0 < slashes)) []
    let joined := (List.intercalate ['/'] stack.reverse)
    let res := List.replicate slashes '/' ++ joined
    if res = [] then ['.'] else res

/-- `posixpath.abspath`: join against the working directory when relative,
then normalize. -/
def pyAbspathL (cwd p : List Char) : List Char :=
  pyNormpathL (if p.head? = some '/' then p else pyJoinL cwd p)

/-- `os.path.basename` for POSIX: the part after the last separator. -/
def pyBasenameL (p : List Char) : List Char :=
  (splitOnChar '/' p).getLastD []

/-- Longest common prefix of two component lists. -/
def lcpComps : List (List Char) → List (List Char) → List (List Char)
  | a :: as, b :: bs => if a = b then a :: lcpComps as bs else []
  | _, _ => []

/-- `posixpath.commonpath` on exactly two paths, as used by
`ToolSet._check_write_permission`: `none` models the `ValueError` raised on
an absolute/relative mix. Empty and `.` components are filtered out before
the component-wise comparison (so no normalization of `..` happens). -/
def pyCommonpath2 (p d : List Char) : Option (List Char) :=
  let pa := p.head? = some '/'
  let da := d.head? = some '/'
  if pa ≠ da then none
  else
    let sp := (splitOnChar '/' p).filter (fun c => c ≠ [] ∧ c ≠ ['.'])
    let sd := (splitOnChar '/' d).filter (fun c => c ≠ [] ∧ c ≠ ['.'])
    let common := lcpComps sp sd
    some ((if pa then ['/'] else []) ++ List.intercalate ['/'] common)

/-! ## JSON model (json.loads)

A model of the stdlib JSON decoder for the documents the agent code feeds
it: null/true/false, integer numbers (floats are out of this model and
rejected), strings with the single-character escapes, arrays, and objects
with last-wins duplicate keys in insertion order (CPython dict semantics).
Parse failure (`json.JSONDecodeError`) is `none`. -/

inductive Json where
  | null
  | bool (b : Bool)
  | num (n : Int)
  | str (s : String)
  | arr (xs : List Json)
  | obj (kvs : List (String × Json))

/-- Insert or overwrite a key, keeping first-insertion order (dict update). -/
def upsertKV (kvs : List (String × Json)) (k : String) (v : Json) :
    List (String × Json) :=
  if kvs.any (fun p => p.1 = k) then
    kvs.map (fun p => if p.1 = k then (k, v) else p)
  else kvs ++ [(k, v)]

/-- JSON string body scanner (after the opening quote); strict about raw
control characters, supports the eight single-character escapes. -/
def parseStrAux : Nat → List Char → List Char → Option (List Char × List Char)
  | 0, _, _ => none
  | f + 1, acc, s =>
    match s with
    | [] => none
    | c :: cs =>
      if c = '"' then some (acc.reverse, cs)
      else if c = '\\' then
        match cs with
        | [] => none
        | e :: cs2 =>
          if e = '"' then parseStrAux f ('"' :: acc) cs2
          else if e = '\\' then parseStrAux f ('\\' :: acc) cs2
          else if e = '/' then parseStrAux f ('/' :: acc) cs2
          else if e = 'b' then parseStrAux f ('\x08' :: acc) cs2
          else if e = 'f' then parseStrAux f ('\x0c' :: acc) cs2
          else if e = 'n' then parseStrAux f ('\n' :: acc) cs2
          else if e = 'r' then parseStrAux f ('\r' :: acc) cs2
          else if e = 't' then parseStrAux f ('\t' :: acc) cs2
          else none
      else if c.toNat < 32 then none
      else parseStrAux f (c :: acc) cs

def digitsAux : Nat → List Char → Nat → Nat × List Char
  | 0, s, acc => (acc, s)
  | f + 1, s, acc =>
    match s with
    | c :: cs => if c.isDigit then digitsAux f cs (acc * 10 + (c.toNat - 48)) else (acc, s)
    | [] => (acc, [])

/-- JSON integer literal: optional minus, digits without a leading zero,
and no fraction or exponent (floats are out of this model). -/
def parseIntL (s : List Char) : Option (Int × List Char) :=
  let (neg, s1) := match s with
    | '-' :: rest => (true, rest)
    | _ => (false, s)
  match s1 with
  | [] => none
  | c :: cs =>
    if ¬ c.isDigit then none
    else
      let (n, rest) :=
        if c = '0' then (0, cs) else digitsAux (s1.length + 1) s1 0
      match rest with
      | '.' :: _ => none
      | 'e' :: _ => none
      | 'E' :: _ => none
      | _ => some (if neg then -(n : Int) else (n : Int), rest)

mutual

def parseValF : Nat → List Char → Option (Json × List Char)
  | 0, _ => none
  | f + 1, s =>
    match s.dropWhile jsonWS with
    | '"' :: rest =>
      match parseStrAux (rest.length + 1) [] rest with
      | some (b, r) => some (.str (String.mk b), r)
      | none => none
    | '{' :: rest =>
      match rest.dropWhile jsonWS with
      | '}' :: r => some (.obj [], r)
      | r => parseObjItems f [] r
    | '[' :: rest =>
      match rest.dropWhile jsonWS with
      | ']' :: r => some (.arr [], r)
      | r => parseArrItems f [] r
    | 't' :: 'r' :: 'u' :: 'e' :: rest => some (.bool true, rest)
    | 'f' :: 'a' :: 'l' :: 's' :: 'e' :: rest => some (.bool false, rest)
    | 'n' :: 'u' :: 'l' :: 'l' :: rest => some (.null, rest)
    | r =>
      match parseIntL r with
      | some (n, rest) => some (.num n, rest)
      | none => none

def parseObjItems : Nat → List (String × Json) → List Char →
    Option (Json × List Char)
  | 0, _, _ => none
  | f + 1, acc, s =>
    match s.dropWhile jsonWS with
    | '"' :: rest =>
      match parseStrAux (rest.length + 1) [] rest with
      | some (k, r1) =>
        match r1.dropWhile jsonWS with
        | ':' :: r2 =>
          match parseValF f r2 with
          | some (v, r3) =>
            let acc2 := upsertKV acc (String.mk k) v
            match r3.dropWhile jsonWS with
            | ',' :: r4 => parseObjItems f acc2 r4
            | '}' :: r4 => some (.obj acc2, r4)
            | _ => none
          | none => none
        | _ => none
      | none => none
    | _ => none

def parseArrItems : Nat → List Json → List Char → Option (Json × List Char)
  | 0, _, _ => none
  | f + 1, acc, s =>
    match parseValF f s with
    | some (v, r) =>
      match r.dropWhile jsonWS with
      | ',' :: r2 => parseArrItems f (acc ++ [v]) r2
      | ']' :: r2 => some (.arr (acc ++ [v]), r2)
      | _ => none
    | none => none

end

def trimJsonL (s : List Char) : List Char :=
  ((s.dropWhile jsonWS).reverse.dropWhile jsonWS).reverse

/-- `json.loads`: skip surrounding JSON whitespace, parse one document, and
require nothing but whitespace after it. -/
def jsonLoads (s : String) : Option Json :=
  let cs := trimJsonL s.toList
  match parseValF (2 * cs.length + 2) cs with
  | some (v, rest) => if rest.dropWhile jsonWS = [] then some v else none
  | none => none

/-! ## Markdown code-fence stripping (Agent._execute_tool, attempt 1)

Models the cascade
  `re.sub(r'^```json\s*', '', s, flags=re.MULTILINE | re.IGNORECASE)`,
  `re.sub(r'^```\s*', '', s1, flags=re.MULTILINE)`,
  `re.sub(r'\s*```$', '', s2, flags=re.MULTILINE)`, then `.strip()`.
Each substitution is a left-to-right scan; `^` matches at the start of the
text and right after each newline, `$` at the end and right before each
newline, and `\s` is the six-character ASCII class. -/

def asciiUpper (c : Char) : Char :=
  if c.isLower then Char.ofNat (c.toNat - 32) else c

/-- Does subject character `sc` match literal pattern character `tc`
(case-insensitively when `ci` is set)? -/
def charMatchCI (ci : Bool) (tc sc : Char) : Bool :=
  sc = tc || (ci && sc = asciiUpper tc)

def tagMatchB (ci : Bool) : List Char → List Char → Bool
  | [], _ => true
  | _ :: _, [] => false
  | tc :: ts, sc :: ss => charMatchCI ci tc sc && tagMatchB ci ts ss

/-- Consume a maximal `\s*` run, tracking whether the last consumed
character was a newline (which re-anchors `^`). -/
def dropWSNl : List Char → Bool → List Char × Bool
  | [], nl => ([], nl)
  | c :: cs, nl => if pyIsSpace c then dropWSNl cs (c = '\n') else (c :: cs, nl)

/-- One `re.sub(r'^TAG\s*', '', ...)` pass; the Bool tracks whether the scan
position is at a line start. Fuel running out leaves the rest untouched,
which never happens for fuel above the length but keeps the scan total and
compositional. -/
def stripTagF (tag : List Char) (ci : Bool) : Nat → Bool → List Char → List Char
  | 0, _, s => s
  | _ + 1, _, [] => []
  | f + 1, ls, c :: cs =>
    if ls && tagMatchB ci tag (c :: cs) then
      let r := dropWSNl ((c :: cs).drop tag.length) false
      stripTagF tag ci f r.2 r.1
    else
      c :: stripTagF tag ci f (c = '\n') cs

def lineEnd : List Char → Bool
  | [] => true
  | c :: _ => c = '\n'

/-- A `` ``` `` occurrence at the head of `t` followed by a line end. -/
def tripleAfter (t : List Char) : Option (List Char) :=
  if ['`', '`', '`'].isPrefixOf t ∧ lineEnd (t.drop 3) then some (t.drop 3)
  else none

/-- Backtracking of the greedy `\s*`: try the largest whitespace prefix
first, then give characters back one by one. -/
def trailTry (s : List Char) : Nat → Option (List Char)
  | 0 => tripleAfter s
  | j + 1 =>
    match tripleAfter (s.drop (j + 1)) with
    | some r => some r
    | none => trailTry s j

/-- Match of `\s*```$` anchored at the head of `s`. -/
def trailMatch (s : List Char) : Option (List Char) :=
  trailTry s (s.takeWhile pyIsSpace).length

/-- The `re.sub(r'\s*```$', '', ...)` pass. -/
def sub3F : Nat → List Char → List Char
  | 0, s => s
  | _ + 1, [] => []
  | f + 1, c :: cs =>
    match trailMatch (c :: cs) with
    | some rest => sub3F f rest
    | none => c :: sub3F f cs

def mdTagJson : List Char := ['`', '`', '`', 'j', 's', 'o', 'n']
def mdTagBare : List Char := ['`', '`', '`']

def stripMarkdownL (s : List Char) : List Char :=
  let s1 := stripTagF mdTagJson true (s.length + 1) true s
  let s2 := stripTagF mdTagBare false (s1.length + 1) true s1
  let s3 := sub3F (s2.length + 1) s2
  pyStripL s3

def stripMarkdown (s : String) : String := String.mk (stripMarkdownL s.toList)

/-- The line-start flag after scanning a chunk of emitted characters:
true exactly when the last character was a newline (or the chunk is empty
and the previous flag was set). -/
def flagAfter (ls : Bool) : List Char → Bool
  | [] => ls
  | c :: cs => flagAfter (c = '\n') cs

/-- No anchored occurrence of the tag pattern at any suffix position:
the scan of `stripTagF` is the identity on such strings. -/
def noTagB (tag : List Char) (ci : Bool) : List Char → Bool
  | [] => !(tagMatchB ci tag [])
  | c :: cs => !(tagMatchB ci tag (c :: cs)) && noTagB tag ci cs

/-! ## Filesystem and sandbox state (tools.py, class ToolSet)

The workspace filesystem is an association list from absolute file path to
content. Directories are implicit: a directory exists when some file lives
under it, matching what the path-based checks of the code can observe. -/

abbrev Fs : Type := List (String × String)

def pyStartswith (s pre : String) : Bool := pre.toList.isPrefixOf s.toList

def fsIsFile (fs : Fs) (p : String) : Bool := fs.any (fun e => e.1 = p)

def fsLookup (fs : Fs) (p : String) : Option String :=
  (fs.find? (fun e => e.1 = p)).map (fun e => e.2)

/-- Overwrite the content of an existing file (leaves other keys alone). -/
def fsSet (fs : Fs) (p v : String) : Fs :=
  fs.map (fun e => if e.1 = p then (p, v) else e)

/-- Create-or-overwrite, as `open(path, "w")` does. -/
def fsUpsert (fs : Fs) (p v : String) : Fs :=
  if fsIsFile fs p then fsSet fs p v else fs ++ [(p, v)]

def dirExists (fs : Fs) (p : String) : Bool :=
  fs.any (fun e => pyStartswith e.1 (p ++ "/"))

def pathExists (fs : Fs) (p : String) : Bool := fsIsFile fs p || dirExists fs p

/-- The mutable state of a `ToolSet` instance plus the process working
directory that `os.path.abspath` consults for relative paths. -/
structure ToolSetState where
  base_dir : String
  allowed_dirs : Option (List String)
  readonly_files : List String
  cwd : String
deriving DecidableEq

/-- `ToolSet.__init__`: the base directory is made absolute immediately;
constraints start unset. -/
def mkToolSet (cwd base : String) : ToolSetState :=
  ⟨String.mk (pyAbspathL cwd.toList base.toList), none, [], cwd⟩

/-- `ToolSet._resolve_path`: join against the base directory, normalize via
`os.path.abspath`, and accept exactly when the result string-starts-with the
base directory (the check the source performs). `Except.error` models the
raised `ValueError`, carrying `str(e)`. -/
def resolve_path (ts : ToolSetState) (user_path : String) : Except String String :=
  let full_path := String.mk (pyJoinL ts.base_dir.toList user_path.toList)
  let abs_path := String.mk (pyAbspathL ts.cwd.toList full_path.toList)
  if ¬ pyStartswith abs_path ts.base_dir then
    .error s!"Access denied: Path \x27{user_path}\x27 resolves to \x27{abs_path}\x27, which is outside the workspace \x27{ts.base_dir}\x27"
  else
    .ok abs_path

/-- Python `repr` of a list of strings, as interpolated into the
permission-denied message. -/
def pyReprList (ds : List String) : String :=
  "[" ++ String.intercalate ", " (ds.map (fun d => "\x27" ++ d ++ "\x27")) ++ "]"

/-- `ToolSet._check_write_permission`: readonly basenames are rejected
first; then, when `allowed_dirs` is set and non-empty (Python truthiness),
the path must be under one of them by `os.path.commonpath`; the
`ValueError` for a mixed pair is swallowed and the loop continues. -/
def check_write_permission (ts : ToolSetState) (abs_path : String) : Option String :=
  let filename := String.mk (pyBasenameL abs_path.toList)
  if ts.readonly_files.contains filename then
    some s!"Access Denied: {filename} is read-only."
  else
    match ts.allowed_dirs with
    | none => none
    | some ds =>
      if ds.isEmpty then none
      else if ds.any (fun d => pyCommonpath2 abs_path.toList d.toList = some d.toList) then
        none
      else
        some s!"Access Denied: Write operation restricted to {pyReprList ds}"

/-- `ToolSet.read_file`. Never restricted by write permissions. -/
def read_file (ts : ToolSetState) (fs : Fs) (path : String) : String :=
  match resolve_path ts path with
  | .error e => s!"Error reading file {path}: {e}"
  | .ok sp =>
    if ¬ pathExists fs sp then s!"Error: File not found: {path}"
    else if ¬ fsIsFile fs sp then s!"Error: Path is not a file: {path}"
    else (fsLookup fs sp).getD ""

/-- `ToolSet.write_file`: creates or overwrites after the permission check. -/
def write_file (ts : ToolSetState) (fs : Fs) (path content : String) :
    Fs × String :=
  match resolve_path ts path with
  | .error e => (fs, s!"Error writing file {path}: {e}")
  | .ok sp =>
    match check_write_permission ts sp with
    | some err => (fs, s!"Error: {err}")
    | none => (fsUpsert fs sp content, s!"Successfully wrote to {path}")

/-- `ToolSet.append_file`: errors when the target does not exist; the
directory case models the `IsADirectoryError` caught by the handler. -/
def append_file (ts : ToolSetState) (fs : Fs) (path content : String) :
    Fs × String :=
  match resolve_path ts path with
  | .error e => (fs, s!"Error appending to file {path}: {e}")
  | .ok sp =>
    match check_write_permission ts sp with
    | some err => (fs, s!"Error: {err}")
    | none =>
      if ¬ pathExists fs sp then
        (fs, s!"Error: File not found: {path}. Use write_file to create new files.")
      else if ¬ fsIsFile fs sp then
        (fs, s!"Error appending to file {path}: IsADirectoryError")
      else
        (fsSet fs sp ((fsLookup fs sp).getD "" ++ content),
         s!"Successfully appended to {path}")

/-- `ToolSet.edit_file`: distinct errors for a missing and for an ambiguous
`old_string`; otherwise `str.replace` on the unique occurrence. -/
def edit_file (ts : ToolSetState) (fs : Fs) (path old_string new_string : String) :
    Fs × String :=
  match resolve_path ts path with
  | .error e => (fs, s!"Error editing file {path}: {e}")
  | .ok sp =>
    match check_write_permission ts sp with
    | some err => (fs, s!"Error: {err}")
    | none =>
      if ¬ pathExists fs sp then (fs, s!"Error: File not found: {path}")
      else if ¬ fsIsFile fs sp then
        (fs, s!"Error editing file {path}: IsADirectoryError")
      else
        let content := (fsLookup fs sp).getD ""
        if ¬ pySubstr old_string content then
          (fs, s!"Error: old_string not found in {path}")
        else if pyCount content old_string > 1 then
          (fs, s!"Error: Multiple occurrences of old_string found in {path}. Please provide more unique context.")
        else
          (fsSet fs sp (pyReplace content old_string new_string),
           s!"Successfully edited {path}")

def firstSeg (s : List Char) : List Char := s.takeWhile (fun c => c ≠ '/')

/-- Immediate entries under a directory, in first-appearance order (the
model's stand-in for `os.listdir` order). -/
def listEntries (fs : Fs) (sp : String) : List String :=
  let pre := sp ++ "/"
  ((fs.filterMap (fun e =>
      if pyStartswith e.1 pre then
        some (String.mk (firstSeg (e.1.toList.drop pre.length)))
      else none)).dedup)

/-- `ToolSet.list_files`: directory entries with a `/` suffix on
subdirectories; the file case models the caught `NotADirectoryError`. -/
def list_files (ts : ToolSetState) (fs : Fs) (path : String) : String :=
  match resolve_path ts path with
  | .error e => s!"Error listing directory {path}: {e}"
  | .ok sp =>
    if ¬ pathExists fs sp then s!"Error: Directory not found: {path}"
    else if ¬ dirExists fs sp then
      s!"Error listing directory {path}: NotADirectoryError"
    else
      let items := listEntries fs sp
      let rendered := items.map (fun item =>
        if dirExists fs (sp ++ "/" ++ item) then item ++ "/" else item)
      if rendered.isEmpty then "(empty directory)"
      else String.intercalate "\n" rendered

def asciiLower (c : Char) : Char :=
  if c.isUpper then Char.ofNat (c.toNat + 32) else c

def pyLower (s : String) : String := String.mk (s.toList.map asciiLower)

/-- The names bound at module level in tools.py (its import list plus its
own definitions). `subprocess` is not among them, which is what makes the
`subprocess.run` call in `run_command` raise `NameError`. -/
def toolsModuleNames : List String :=
  ["os", "json", "Dict", "Any", "List", "Optional", "TOOL_DEFINITIONS", "ToolSet"]

/-- `ToolSet.run_command`: the synchronous approval gate reads one line
(`approval`); on approval the body resolves the name `subprocess`, and `ex`
is the would-be subprocess executor returning (exit code, stdout, stderr).
The `NameError` is caught by the handler and formatted with `str(e)`. -/
def run_command (ex : String → Nat × String × String) (approval command : String) :
    String :=
  if pyLower (pyStrip approval) ≠ "y" then
    "Error: User denied command execution."
  else if toolsModuleNames.contains "subprocess" then
    let r := ex command
    s!"Exit Code: {r.1}\nSTDOUT:\n{r.2.1}\nSTDERR:\n{r.2.2}"
  else
    "Error executing command: name \x27subprocess\x27 is not defined"

/-! ## set_constraints and dynamic dispatch (agent.py, Agent._execute_tool)

`_execute_tool` dispatches by `hasattr`/`getattr` on the `ToolSet`
instance, so every attribute of the class is reachable, not only the
capability methods. The attribute list below is the set of names defined by
the class body and `__init__` (object-inherited dunder attributes are
outside the model). -/

def toolSetAttributes : List String :=
  ["base_dir", "allowed_dirs", "readonly_files",
   "set_constraints", "_check_write_permission", "_resolve_path",
   "read_file", "write_file", "append_file", "edit_file", "list_files",
   "run_command"]

def jsonTruthy : Json → Bool
  | .null => false
  | .bool b => b
  | .num n => n ≠ 0
  | .str s => s ≠ ""
  | .arr xs => ¬ xs.isEmpty
  | .obj kvs => ¬ kvs.isEmpty

def asStrList : Json → Option (List String)
  | .arr xs => xs.mapM (fun v => match v with | .str s => some s | _ => none)
  | _ => none

/-- `ToolSet.set_constraints`: truthy `allowed_dirs` is absolutized with
`os.path.abspath`, a falsy one clears the restriction; falsy
`readonly_files` becomes the empty list. A non-iterable-of-paths
`allowed_dirs` makes `os.path.abspath` raise (modelled by the error case);
non-string `readonly_files` entries are outside this model. The Python
function returns `None`. -/
def set_constraints (ts : ToolSetState) (allowed_dirs readonly_files : Json) :
    Except String ToolSetState :=
  let adRes : Except String (Option (List String)) :=
    if jsonTruthy allowed_dirs then
      match asStrList allowed_dirs with
      | some ds =>
        .ok (some (ds.map (fun d => String.mk (pyAbspathL ts.cwd.toList d.toList))))
      | none => .error "expected str, bytes or os.PathLike object"
    else .ok none
  match adRes with
  | .error e => .error e
  | .ok ad =>
    let ro : List String :=
      if jsonTruthy readonly_files then (asStrList readonly_files).getD []
      else []
    .ok { ts with allowed_dirs := ad, readonly_files := ro }

/-- Keyword parameters of each callable `ToolSet` attribute: name and
whether the parameter is required (has no default). -/
def methodParams : String → List (String × Bool)
  | "read_file" => [("path", true)]
  | "write_file" => [("path", true), ("content", true)]
  | "append_file" => [("path", true), ("content", true)]
  | "edit_file" => [("path", true), ("old_string", true), ("new_string", true)]
  | "list_files" => [("path", false)]
  | "run_command" => [("command", true)]
  | "set_constraints" => [("allowed_dirs", false), ("readonly_files", false)]
  | "_check_write_permission" => [("abs_path", true)]
  | "_resolve_path" => [("user_path", true)]
  | _ => []

/-- Keyword binding of `method(**args)`: an unknown key or a missing
required parameter raises `TypeError` before the body runs. The error
string is `str(e)`. -/
def bindKwargs (fn : String) (params : List (String × Bool))
    (args : List (String × Json)) : Except String Unit :=
  match args.find? (fun kv => ¬ params.any (fun p => p.1 = kv.1)) with
  | some kv =>
    .error s!"{fn}() got an unexpected keyword argument \x27{kv.1}\x27"
  | none =>
    match params.find? (fun p => p.2 ∧ ¬ args.any (fun kv => kv.1 = p.1)) with
    | some p =>
      .error s!"{fn}() missing 1 required positional argument: \x27{p.1}\x27"
    | none => .ok ()

/-- Look up a string argument, falling back to a default for an absent
optional parameter; a present non-string value is `none` (the path
operations inside the body would raise on it). -/
def argStr (args : List (String × Json)) (k dflt : String) : Option String :=
  match args.find? (fun kv => kv.1 = k) with
  | some kv => match kv.2 with | .str s => some s | _ => none
  | none => some dflt

def argJson (args : List (String × Json)) (k : String) : Json :=
  match args.find? (fun kv => kv.1 = k) with
  | some kv => kv.2
  | none => .null

/-- `getattr(self.tool_set, func_name)(**args)` for every attribute the
dispatcher can reach. `.ok (ts, fs, ret)` is a normal return (`ret = none`
is Python `None`); `.error e` is an exception raised out of the call, with
`e = str(e)`. The file tools catch their own internal exceptions and the
non-string-argument cases model those caught `TypeError`s as the returned
error text of the respective handler. -/
def callMethod (ex : String → Nat × String × String) (approval : String)
    (ts : ToolSetState) (fs : Fs) (fn : String) (args : List (String × Json)) :
    Except String (ToolSetState × Fs × Option String) :=
  match bindKwargs fn (methodParams fn) args with
  | .error e => .error e
  | .ok _ =>
    if fn = "read_file" then
      match argStr args "path" "" with
      | some p => .ok (ts, fs, some (read_file ts fs p))
      | none => .ok (ts, fs, some "Error reading file: TypeError")
    else if fn = "write_file" then
      match argStr args "path" "", argStr args "content" "" with
      | some p, some c =>
        let r := write_file ts fs p c
        .ok (ts, r.1, some r.2)
      | _, _ => .ok (ts, fs, some "Error writing file: TypeError")
    else if fn = "append_file" then
      match argStr args "path" "", argStr args "content" "" with
      | some p, some c =>
        let r := append_file ts fs p c
        .ok (ts, r.1, some r.2)
      | _, _ => .ok (ts, fs, some "Error appending to file: TypeError")
    else if fn = "edit_file" then
      match argStr args "path" "", argStr args "old_string" "",
            argStr args "new_string" "" with
      | some p, some o, some n =>
        let r := edit_file ts fs p o n
        .ok (ts, r.1, some r.2)
      | _, _, _ => .ok (ts, fs, some "Error editing file: TypeError")
    else if fn = "list_files" then
      match argStr args "path" "." with
      | some p => .ok (ts, fs, some (list_files ts fs p))
      | none => .ok (ts, fs, some "Error listing directory: TypeError")
    else if fn = "run_command" then
      match argStr args "command" "" with
      | some c => .ok (ts, fs, some (run_command ex approval c))
      | none => .error "expected str, bytes or os.PathLike object"
    else if fn = "set_constraints" then
      match set_constraints ts (argJson args "allowed_dirs")
          (argJson args "readonly_files") with
      | .ok ts2 => .ok (ts2, fs, none)
      | .error e => .error e
    else if fn = "_resolve_path" then
      match argStr args "user_path" "" with
      | some p =>
        match resolve_path ts p with
        | .ok sp => .ok (ts, fs, some sp)
        | .error e => .error e
      | none => .error "expected str, bytes or os.PathLike object"
    else if fn = "_check_write_permission" then
      match argStr args "abs_path" "" with
      | some p => .ok (ts, fs, check_write_permission ts p)
      | none => .error "expected str, bytes or os.PathLike object"
    else
      -- data attributes: `getattr` yields a non-callable value
      .error s!"\x27str\x27 object is not callable"

/-- A tool call as produced by the model interface. -/
structure ToolCallRec where
  id : String
  func_name : String
  arguments : String
deriving DecidableEq

/-- What `Agent._execute_tool` does with one tool call: either it reaches
`session.add_tool_output` with some output text, or an exception escapes
the method. -/
inductive ExecOutcome where
  | toolMsg (call_id func_name output : String)
  | raised (msg : String)
deriving DecidableEq

/-- The textual detail of a `json.JSONDecodeError` is abstracted by this
constant (no claim depends on it). -/
def jsonErrText : String := "Expecting value"

def pyStr : Option String → String
  | some s => s
  | none => "None"

/-- The final error path: stash the raw payload at the fixed debug path
inside the workspace and report a parse error. -/
def stashOutcome (ts : ToolSetState) (fs : Fs) (tc : ToolCallRec) :
    ExecOutcome × ToolSetState × Fs :=
  let stash_path := String.mk (pyJoinL ts.base_dir.toList "debug_invalid_json.txt".toList)
  let fs2 := fsUpsert fs stash_path tc.arguments
  (.toolMsg tc.id tc.func_name
     s!"Error: Invalid JSON arguments for {tc.func_name}: {jsonErrText}. Raw arguments stashed to {stash_path}",
   ts, fs2)

/-- The main dispatch (agent.py lines 201-218): `hasattr` gate, call under
`except Exception`, then the output log line computes `len(output)` —
which raises `TypeError` when the method returned `None`. -/
def dispatchCall (ex : String → Nat × String × String) (approval : String)
    (ts : ToolSetState) (fs : Fs) (tc : ToolCallRec) (args : Json) :
    ExecOutcome × ToolSetState × Fs :=
  if toolSetAttributes.contains tc.func_name then
    match args with
    | .obj kvs =>
      match callMethod ex approval ts fs tc.func_name kvs with
      | .ok (ts2, fs2, ret) =>
        match ret with
        | some out => (.toolMsg tc.id tc.func_name out, ts2, fs2)
        | none => (.raised "object of type \x27NoneType\x27 has no len()", ts2, fs2)
      | .error e =>
        (.toolMsg tc.id tc.func_name s!"Error executing {tc.func_name}: {e}", ts, fs)
    | _ =>
      (.toolMsg tc.id tc.func_name
         s!"Error executing {tc.func_name}: argument after ** must be a mapping",
       ts, fs)
  else
    (.toolMsg tc.id tc.func_name s!"Error: Tool {tc.func_name} not found", ts, fs)

/-- `Agent._execute_tool`: parse as-is; on failure strip markdown fences
and re-parse; on failure, for the content-writing tools, close the
truncated payload with a quote and brace and execute with partial content
(only `json.JSONDecodeError` is caught around that execution); otherwise
stash the payload and report. -/
def executeTool (ex : String → Nat × String × String) (approval : String)
    (ts : ToolSetState) (fs : Fs) (tc : ToolCallRec) :
    ExecOutcome × ToolSetState × Fs :=
  match jsonLoads tc.arguments with
  | some args => dispatchCall ex approval ts fs tc args
  | none =>
    match jsonLoads (stripMarkdown tc.arguments) with
    | some args => dispatchCall ex approval ts fs tc args
    | none =>
      if tc.func_name = "write_file" ∨ tc.func_name = "append_file" then
        let clean0 := pyRStripL tc.arguments.toList
        let clean := if clean0.getLast? = some '\\' then clean0.dropLast else clean0
        let repaired := String.mk (clean ++ ['"', '\x7d'])
        match jsonLoads repaired with
        | some args =>
          if toolSetAttributes.contains tc.func_name then
            match args with
            | .obj kvs =>
              match callMethod ex approval ts fs tc.func_name kvs with
              | .ok (ts2, fs2, ret) =>
                (.toolMsg tc.id tc.func_name
                   ("WARNING: The tool call argument was TRUNCATED due to length limits.\n" ++
                    s!"I have auto-repaired the JSON and executed \x27{tc.func_name}\x27 with the PARTIAL content.\n" ++
                    s!"Result: {pyStr ret}\n\n" ++
                    "IMPORTANT: The file is INCOMPLETE. \n" ++
                    "You MUST immediately call \x27append_file\x27 to write the REST of the content.\n" ++
                    "Resume exactly from the end of the written content."),
                 ts2, fs2)
              | .error e => (.raised e, ts, fs)
            | _ => (.raised "argument after ** must be a mapping", ts, fs)
          else stashOutcome ts fs tc
        | none => stashOutcome ts fs tc
      else stashOutcome ts fs tc

/-! ## Conversation store (session.py, class Session) -/

structure Msg where
  role : String
  content : Option String
  tool_calls : Option (List ToolCallRec)
  tool_call_id : Option String
  name : Option String
deriving DecidableEq

/-- `Session.__init__`: the history starts with the system message. -/
def sessionInit (system_prompt : String) : List Msg :=
  [⟨"system", some system_prompt, none, none, none⟩]

def add_user_message (h : List Msg) (content : String) : List Msg :=
  h ++ [⟨"user", some content, none, none, none⟩]

def add_assistant_message (h : List Msg) (content : Option String)
    (tool_calls : Option (List ToolCallRec)) : List Msg :=
  h ++ [⟨"assistant", content, tool_calls, none, none⟩]

def add_tool_output (h : List Msg) (tool_call_id tool_name output : String) :
    List Msg :=
  h ++ [⟨"tool", some output, none, some tool_call_id, some tool_name⟩]

/-- The wire-form dictionary of `Message.to_dict`: role and content always
present; the other keys only when truthy. -/
structure WireMsg where
  role : String
  content : Option String
  tool_calls : Option (List ToolCallRec)
  tool_call_id : Option String
  name : Option String
deriving DecidableEq

def optTruthyList (x : Option (List ToolCallRec)) : Option (List ToolCallRec) :=
  match x with
  | some [] => none
  | some l => some l
  | none => none

def optTruthyStr (x : Option String) : Option String :=
  match x with
  | some "" => none
  | x => x

def toDict (m : Msg) : WireMsg :=
  ⟨m.role, m.content, optTruthyList m.tool_calls,
   optTruthyStr m.tool_call_id, optTruthyStr m.name⟩

/-- The operations client code performs on a session after construction. -/
inductive SessionOp where
  | user (content : String)
  | assistant (content : Option String) (tool_calls : Option (List ToolCallRec))
  | tool (tool_call_id tool_name output : String)

def applyOp (h : List Msg) : SessionOp → List Msg
  | .user c => add_user_message h c
  | .assistant c tcs => add_assistant_message h c tcs
  | .tool i n o => add_tool_output h i n o

def applyOps (h : List Msg) (ops : List SessionOp) : List Msg :=
  ops.foldl applyOp h

/-- `Session.get_context`. -/
def get_context (h : List Msg) : List WireMsg := h.map toDict

/-! ## Retry Supervisor (run_basic.py, builder-mode loop)

The loop is deterministic once the agent responses and the oracle verdicts
per attempt are fixed, so both are inputs of the model. `oracleRuns`
records the attempt indices at which `run_tests` was invoked, in order. -/

def max_attempts : Nat := 5

inductive BuildOutcome where
  | success
  | maxFail
  | architectStop
  | loopEnded
deriving DecidableEq

structure BuildResult where
  attemptsRun : Nat
  oracleRuns : List Nat
  outcome : BuildOutcome
  lastOutput : String
deriving DecidableEq

/-- One pass of `for attempt in range(max_attempts)` with the three break
conditions of the source; `resp` is `agent.run(...)` per attempt (an
`Option` because the turn engine can return `None`), `oracle` is
`run_tests` per attempt. Fuel equals the remaining range length. -/
def ralphAux (resp : Nat → Option String) (oracle : Nat → Bool × String) :
    Nat → Nat → Nat → List Nat → String → BuildResult
  | 0, _, ar, orns, lastOut => ⟨ar, orns.reverse, .loopEnded, lastOut⟩
  | f + 1, attempt, ar, orns, lastOut =>
    let r := resp attempt
    let sentinel :=
      match r with
      | some t => pySubstr "ARCHITECT_ERROR" t
      | none => false
    if sentinel then ⟨ar + 1, orns.reverse, .architectStop, lastOut⟩
    else
      let res := oracle attempt
      let orns2 := attempt :: orns
      if res.1 then ⟨ar + 1, orns2.reverse, .success, res.2⟩
      else if attempt = max_attempts - 1 then ⟨ar + 1, orns2.reverse, .maxFail, res.2⟩
      else ralphAux resp oracle f (attempt + 1) (ar + 1) orns2 res.2

def ralphLoop (resp : Nat → Option String) (oracle : Nat → Bool × String) :
    BuildResult :=
  ralphAux resp oracle max_attempts 0 0 [] ""

/-! ## Spec-side predicate for C1

Segment-wise containment in the sense of the specification: the resolved
path is the workspace root itself, or extends it at a path-segment
boundary. This is the property the spec demands of `resolve`, stated
independently of the code's own check. -/

def isSegDescendantOrSelf (root p : String) : Bool :=
  p = root || pyStartswith p (root ++ "/")

end SMC

namespace SMC

/-! # Claim theorems -/

/-- C1: the claim says `_resolve_path` either raises or returns the root or
a true segment-wise descendant of it, and in particular rejects a candidate
resolving under a sibling directory whose name textually extends the root
(root `/work`, resolved path under `/work2`). The code's bare
`startswith` check accepts exactly that input: from base `/work`, the user
path `../work2/secret` resolves to `/work2/secret` and is returned, yet it
is not a segment-wise descendant of `/work`. -/
theorem c1_resolve_path_admits_textual_sibling :
    resolve_path ⟨"/work", none, [], "/work"⟩ "../work2/secret"
      = .ok "/work2/secret" ∧
    isSegDescendantOrSelf "/work" "/work2/secret" = false := by
  constructor <;> rfl

/-- C2: the claim says either fatal sentinel (`ARCHITECT_ERROR` or
`DEPENDENCY_ERROR`) in the assistant text halts the Retry Supervisor before
the oracle of that attempt runs. The loop only tests for
`ARCHITECT_ERROR`: with every response carrying `DEPENDENCY_ERROR`, the
oracle is invoked on every attempt including the first, and the loop runs
to the attempt budget; the `ARCHITECT_ERROR` sentinel, by contrast, does
halt before the first oracle invocation. -/
theorem c2_dependency_error_sentinel_ignored :
    pySubstr "DEPENDENCY_ERROR" "DEPENDENCY_ERROR: missing class" = true ∧
    ralphLoop (fun _ => some "DEPENDENCY_ERROR: missing class")
        (fun _ => (false, "boom"))
      = ⟨5, [0, 1, 2, 3, 4], .maxFail, "boom"⟩ ∧
    ralphLoop (fun _ => some "ARCHITECT_ERROR: broken interface")
        (fun _ => (false, "boom"))
      = ⟨1, [], .architectStop, ""⟩ := by
  refine ⟨?_, ?_, ?_⟩ <;> rfl

/-- C3: the claim says `run_command` blocks on the approval gate, returns a
user-denied error without executing on denial, and on approval executes the
command in the workspace root and returns exit code with stdout/stderr.
The denial half holds, but tools.py never imports `subprocess`, so the
approved path raises `NameError`, which the handler converts to an error
string: no command is ever executed and no exit code is ever returned,
whatever executor behavior `ex` the subprocess layer would have had. -/
theorem c3_run_command_denial_and_missing_import :
    (∀ (ex : String → Nat × String × String) (approval command : String),
        pyLower (pyStrip approval) ≠ "y" →
        run_command ex approval command = "Error: User denied command execution.") ∧
    (∀ (ex : String → Nat × String × String) (command : String),
        run_command ex "y" command
          = "Error executing command: name \x27subprocess\x27 is not defined") := by
  constructor
  · intro ex approval command h
    simp [run_command, h]
  · intro ex command
    rfl

/-- Witness for the hypothesis of `c3_run_command_denial_and_missing_import`:
the denial branch at the concrete refused approval `" N "`. -/
theorem c3_run_command_denial_witness :
    run_command (fun _ => (0, "", "")) " N " "echo hi"
      = "Error: User denied command execution." :=
  c3_run_command_denial_and_missing_import.1 _ " N " "echo hi" (by decide)

/-- C4: the claim says no exception escapes `Agent._execute_tool`. In the
truncation-repair branch only `json.JSONDecodeError` is caught around the
tool execution, so a repaired payload that parses but fails keyword binding
makes the `TypeError` propagate out of the layer: the truncated payload
with the misspelled key `paht` is closed to valid JSON by the repair, and
the call `write_file(**args)` then raises without any tool-output message
being appended. -/
theorem c4_truncation_repair_typeerror_escapes :
    executeTool (fun _ => (0, "", "")) "y" ⟨"/work", none, [], "/work"⟩ []
      ⟨"call_1", "write_file", "\x7b\"paht\": \"f.txt\", \"content\": \"x"⟩
    = (.raised "write_file() got an unexpected keyword argument \x27paht\x27",
       ⟨"/work", none, [], "/work"⟩, []) := by
  rfl

/-- C10: the claim says the turn engine dispatches by attribute lookup on
the `ToolSet` instance, so any attribute name — including the
non-capability `set_constraints`, which mutates `allowed_dirs` and
`readonly_files` — is invoked with the supplied arguments, and the
"Tool not found" error is produced exactly for non-attribute names.
Part one shows `set_constraints` reached through the dispatcher really
mutates the sandbox constraints; part two, that no attribute name yields
the not-found error; part three, that every non-attribute name yields
exactly it, with the state untouched. -/
theorem c10_dispatch_by_attribute_lookup :
    ((executeTool (fun _ => (0, "", "")) "y" ⟨"/work", none, [], "/work"⟩ []
        ⟨"c1", "set_constraints",
         "\x7b\"allowed_dirs\": [\"/m\"], \"readonly_files\": [\"test_spec.py\"]\x7d"⟩).2.1
      = ⟨"/work", some ["/m"], ["test_spec.py"], "/work"⟩) ∧
    (∀ name ∈ toolSetAttributes,
        (executeTool (fun _ => (0, "", "")) "y" ⟨"/work", none, [], "/work"⟩ []
          ⟨"c", name, "\x7b\x7d"⟩).1
        ≠ .toolMsg "c" name s!"Error: Tool {name} not found") ∧
    (∀ (name id : String), toolSetAttributes.contains name = false →
        executeTool (fun _ => (0, "", "")) "y" ⟨"/work", none, [], "/work"⟩ []
          ⟨id, name, "\x7b\x7d"⟩
        = (.toolMsg id name s!"Error: Tool {name} not found",
           ⟨"/work", none, [], "/work"⟩, [])) := by
  refine ⟨by rfl, by decide, ?_⟩
  intro name id h
  simp only [executeTool, dispatchCall]
  rw [h]
  rfl

/-- Witness for the bounded and conditional parts of
`c10_dispatch_by_attribute_lookup`, at the attribute `set_constraints` and
the non-attribute `frobnicate`. -/
theorem c10_dispatch_witness :
    ((executeTool (fun _ => (0, "", "")) "y" ⟨"/work", none, [], "/work"⟩ []
        ⟨"c", "set_constraints", "\x7b\x7d"⟩).1
      ≠ .toolMsg "c" "set_constraints" "Error: Tool set_constraints not found") ∧
    executeTool (fun _ => (0, "", "")) "y" ⟨"/work", none, [], "/work"⟩ []
        ⟨"cid", "frobnicate", "\x7b\x7d"⟩
      = (.toolMsg "cid" "frobnicate" "Error: Tool frobnicate not found",
         ⟨"/work", none, [], "/work"⟩, []) :=
  ⟨c10_dispatch_by_attribute_lookup.2.1 "set_constraints" (by decide),
   c10_dispatch_by_attribute_lookup.2.2 "frobnicate" "cid" (by decide)⟩

/-- Auxiliary for C7: applying any operation sequence to a history whose
head is the system message appends only non-system messages. -/
theorem applyOps_shape (ops : List SessionOp) (m0 : Msg) (rest : List Msg)
    (hrest : ∀ m ∈ rest, m.role ≠ "system") :
    ∃ rest2, applyOps (m0 :: rest) ops = m0 :: rest2 ∧
      ∀ m ∈ rest2, m.role ≠ "system" := by
  induction ops generalizing rest with
  | nil => exact ⟨rest, rfl, hrest⟩
  | cons op ops ih =>
    have hstep : ∃ newm, applyOp (m0 :: rest) op = m0 :: (rest ++ [newm]) ∧
        newm.role ≠ "system" := by
      cases op with
      | user c =>
        exact ⟨⟨"user", some c, none, none, none⟩, rfl, by simp⟩
      | assistant c tcs =>
        exact ⟨⟨"assistant", c, tcs, none, none⟩, rfl, by simp⟩
      | tool i n o =>
        exact ⟨⟨"tool", some o, none, some i, some n⟩, rfl, by simp⟩
    obtain ⟨newm, hop, hrole⟩ := hstep
    have hall : ∀ m ∈ rest ++ [newm], m.role ≠ "system" := by
      intro m hm
      rcases List.mem_append.mp hm with h1 | h2
      · exact hrest m h1
      · rcases List.mem_singleton.mp h2 with rfl
        exact hrole
    obtain ⟨rest2, happ, h2⟩ := ih (rest ++ [newm]) hall
    refine ⟨rest2, ?_, h2⟩
    show applyOps (applyOp (m0 :: rest) op) ops = m0 :: rest2
    rw [hop]
    exact happ

/-- C7: the claim says `get_context` returns exactly one wire-form element
per stored message in insertion order, element 0 has role "system", and no
other element has role "system", for every operation sequence on a
session. -/
theorem c7_session_context_system_invariant (system_prompt : String)
    (ops : List SessionOp) :
    (get_context (applyOps (sessionInit system_prompt) ops)).length
      = (applyOps (sessionInit system_prompt) ops).length ∧
    get_context (applyOps (sessionInit system_prompt) ops)
      = (applyOps (sessionInit system_prompt) ops).map toDict ∧
    ∃ w rest, get_context (applyOps (sessionInit system_prompt) ops) = w :: rest
      ∧ w.role = "system" ∧ ∀ m ∈ rest, m.role ≠ "system" := by
  obtain ⟨rest2, heq, hrest⟩ :=
    applyOps_shape ops ⟨"system", some system_prompt, none, none, none⟩ []
      (by intro m hm; cases hm)
  refine ⟨by simp [get_context], rfl, ?_⟩
  refine ⟨toDict ⟨"system", some system_prompt, none, none, none⟩,
    rest2.map toDict, ?_, rfl, ?_⟩
  · show (applyOps (sessionInit system_prompt) ops).map toDict = _
    rw [show applyOps (sessionInit system_prompt) ops
          = (⟨"system", some system_prompt, none, none, none⟩ : Msg) :: rest2 from heq]
    rfl
  · intro m hm
    obtain ⟨m0, hm0, rfl⟩ := List.mem_map.mp hm
    exact hrest m0 hm0

/-- Witness for `c7_session_context_system_invariant` at a concrete
operation sequence. -/
theorem c7_session_context_witness :
    (get_context (applyOps (sessionInit "sys")
        [SessionOp.user "hi",
         SessionOp.assistant (some "ok") none,
         SessionOp.tool "id1" "read_file" "out"])).length
      = (applyOps (sessionInit "sys")
        [SessionOp.user "hi",
         SessionOp.assistant (some "ok") none,
         SessionOp.tool "id1" "read_file" "out"]).length :=
  (c7_session_context_system_invariant "sys"
    [SessionOp.user "hi", SessionOp.assistant (some "ok") none,
     SessionOp.tool "id1" "read_file" "out"]).1

/-- C8: the claim says that with a deterministic oracle failing attempts
1..k-1 and succeeding on attempt k ≤ N the Retry Supervisor performs
exactly k attempts and reports success, and with an always-failing oracle
it performs exactly N attempts, reports failure, and retains the final
attempt's captured output. Attempts are 0-indexed here, so oracle index
k-1 is attempt k; responses must be sentinel-free for the loop to reach
the oracle at all. -/
theorem c8_retry_supervisor_attempt_counts :
    (∀ (resp : Nat → String) (oracle : Nat → Bool × String) (k : Nat),
        1 ≤ k → k ≤ max_attempts →
        (∀ i, pySubstr "ARCHITECT_ERROR" (resp i) = false) →
        (∀ i, i + 1 < k → (oracle i).1 = false) →
        (oracle (k - 1)).1 = true →
        ralphLoop (fun i => some (resp i)) oracle
          = ⟨k, List.range k, .success, (oracle (k - 1)).2⟩) ∧
    (∀ (resp : Nat → String) (oracle : Nat → Bool × String),
        (∀ i, pySubstr "ARCHITECT_ERROR" (resp i) = false) →
        (∀ i, (oracle i).1 = false) →
        ralphLoop (fun i => some (resp i)) oracle
          = ⟨max_attempts, List.range max_attempts, .maxFail,
             (oracle (max_attempts - 1)).2⟩) := by
  constructor
  · intro resp oracle k hk1 hk5 hs hf hsucc
    have hk5' : k ≤ 5 := hk5
    clear hk5
    interval_cases k
    · simp [ralphLoop, ralphAux, max_attempts, hs 0, hsucc, List.range_succ]
    · simp [ralphLoop, ralphAux, max_attempts, hs 0, hs 1,
        hf 0 (by omega), hsucc, List.range_succ]
    · simp [ralphLoop, ralphAux, max_attempts, hs 0, hs 1, hs 2,
        hf 0 (by omega), hf 1 (by omega), hsucc, List.range_succ]
    · simp [ralphLoop, ralphAux, max_attempts, hs 0, hs 1, hs 2, hs 3,
        hf 0 (by omega), hf 1 (by omega), hf 2 (by omega), hsucc, List.range_succ]
    · simp [ralphLoop, ralphAux, max_attempts, hs 0, hs 1, hs 2, hs 3, hs 4,
        hf 0 (by omega), hf 1 (by omega), hf 2 (by omega), hf 3 (by omega),
        hsucc, List.range_succ]
  · intro resp oracle hs hf
    simp [ralphLoop, ralphAux, max_attempts, hs 0, hs 1, hs 2, hs 3, hs 4,
      hf 0, hf 1, hf 2, hf 3, hf 4, List.range_succ]

/-- Witness for `c8_retry_supervisor_attempt_counts`: success on the second
attempt gives exactly two attempts, and an always-failing oracle gives five
attempts with the last output retained. -/
theorem c8_retry_supervisor_witness :
    ralphLoop (fun _ => some "done") (fun i => (decide (1 ≤ i), "out"))
      = ⟨2, List.range 2, .success, "out"⟩ ∧
    ralphLoop (fun _ => some "done") (fun _ => (false, "always"))
      = ⟨5, List.range 5, .maxFail, "always"⟩ :=
  ⟨c8_retry_supervisor_attempt_counts.1 (fun _ => "done")
      (fun i => (decide (1 ≤ i), "out")) 2 (by omega) (by decide)
      (fun _ => (by decide : pySubstr "ARCHITECT_ERROR" "done" = false))
      (fun i hi => by
        have : i = 0 := by omega
        subst this
        decide)
      (by decide),
   c8_retry_supervisor_attempt_counts.2 (fun _ => "done")
      (fun _ => (false, "always"))
      (fun _ => (by decide : pySubstr "ARCHITECT_ERROR" "done" = false))
      (fun _ => rfl)⟩


/-- The empty pattern is contained in every string (Python `"" in s`). -/
theorem pySubstrL_nil (s : List Char) : pySubstrL [] s = true := by
  cases s <;> simp [pySubstrL]

/-- Bridge: containment of a non-empty pattern coincides with a positive
`str.count`, for any sufficient fuel. -/
theorem pySubstrL_iff_one_le_count (d : Char) (ds : List Char) :
    ∀ (f : Nat) (s : List Char), s.length < f →
      (pySubstrL (d :: ds) s = true ↔ 1 ≤ pyCountF (d :: ds) f s) := by
  intro f
  induction f with
  | zero => intro s hs; omega
  | succ f ih =>
    intro s hs
    cases s with
    | nil => simp [pySubstrL, pyCountF]
    | cons c cs =>
      by_cases hp : (d :: ds).isPrefixOf (c :: cs)
      · simp [pySubstrL, pyCountF, hp]
      · have hlen : cs.length < f := by simpa using hs
        simp only [pySubstrL, pyCountF, hp, Bool.false_eq_true, if_false, Bool.false_or]
        exact ih cs hlen

/-- `str.replace` is the identity when the pattern does not occur. -/
theorem pyReplaceF_of_count_zero (sub repl : List Char) :
    ∀ (f : Nat) (s : List Char), s.length < f →
      pyCountF sub f s = 0 → pyReplaceF sub repl f s = s := by
  intro f
  induction f with
  | zero => intro s hs; omega
  | succ f ih =>
    intro s hs h0
    cases s with
    | nil => rfl
    | cons c cs =>
      by_cases hp : sub.isPrefixOf (c :: cs)
      · simp [pyCountF, hp] at h0
      · have hlen : cs.length < f := by simpa using hs
        simp only [pyCountF, hp, Bool.false_eq_true, if_false] at h0
        simp only [pyReplaceF, hp, Bool.false_eq_true, if_false]
        rw [ih cs hlen h0]

/-- With exactly one occurrence, `str.replace` performs exactly one
substitution: the string splits as `pre ++ sub ++ post` and the result is
`pre ++ repl ++ post`. -/
theorem pyReplaceF_of_count_one (d : Char) (ds repl : List Char) :
    ∀ (f : Nat) (s : List Char), s.length < f →
      pyCountF (d :: ds) f s = 1 →
      ∃ pre post, s = pre ++ (d :: ds) ++ post ∧
        pyReplaceF (d :: ds) repl f s = pre ++ repl ++ post := by
  intro f
  induction f with
  | zero => intro s hs; omega
  | succ f ih =>
    intro s hs h1
    cases s with
    | nil => simp [pyCountF] at h1
    | cons c cs =>
      by_cases hp : (d :: ds).isPrefixOf (c :: cs)
      · have hpre : (d :: ds) <+: (c :: cs) := by
          rwa [← List.isPrefixOf_iff_prefix]
        obtain ⟨rest, hrest⟩ := hpre
        have hcs : cs = ds ++ rest := by
          injection hrest with h1' h2'
          exact h2'.symm
        have hdrop : cs.drop ((d :: ds).length - 1) = rest := by
          rw [hcs]
          simp
        have hlen : rest.length < f := by
          have : rest.length ≤ cs.length := by
            rw [hcs]; simp
          simp at hs
          omega
        have hcount : pyCountF (d :: ds) f rest = 0 := by
          have := h1
          simp only [pyCountF, hp, if_true, hdrop] at this
          omega
        refine ⟨[], rest, ?_, ?_⟩
        · simpa using hrest.symm
        · simp only [pyReplaceF, hp, if_true, hdrop]
          rw [pyReplaceF_of_count_zero (d :: ds) repl f rest hlen hcount]
          simp
      · have hlen : cs.length < f := by simpa using hs
        simp only [pyCountF, hp, Bool.false_eq_true, if_false] at h1
        obtain ⟨pre, post, hdec, hrep⟩ := ih cs hlen h1
        refine ⟨c :: pre, post, ?_, ?_⟩
        · simp [hdec]
        · simp only [pyReplaceF, hp, Bool.false_eq_true, if_false]
          rw [hrep]
          rfl

/-- A successful lookup means the file is present. -/
theorem fsIsFile_of_lookup {fs : Fs} {sp content : String}
    (h : fsLookup fs sp = some content) : fsIsFile fs sp = true := by
  unfold fsLookup at h
  obtain ⟨e, hfind, he⟩ := Option.map_eq_some'.mp h
  have hm := List.mem_of_find?_eq_some hfind
  have hp := List.find?_some hfind
  exact List.any_eq_true.mpr ⟨e, hm, hp⟩

/-- `pyCount` unfolds to the fuelled scan for a non-empty pattern. -/
theorem pyCount_eq_countF (content old : String) (d : Char) (ds : List Char)
    (hOld : old.toList = d :: ds) :
    pyCount content old
      = pyCountF (d :: ds) (content.toList.length + 1) content.toList := by
  simp only [pyCount, pyCountL, hOld, List.isEmpty_cons, Bool.false_eq_true,
    if_false]

/-- C5: the claim says `edit_file` leaves the file unchanged and returns a
not-found error when `old_string` occurs zero times, leaves it unchanged
with a distinct ambiguity error when it occurs more than once, and
otherwise performs exactly one substitution and rewrites the file.
Occurrences are counted as Python `str.count` counts them
(non-overlapping, left to right); the hypotheses put the call past path
resolution, the permission check and the existence check, which are the
same for all three cases. -/
theorem c5_edit_file_occurrence_cases (ts : ToolSetState) (fs : Fs)
    (path old_string new_string sp content : String)
    (hres : resolve_path ts path = .ok sp)
    (hperm : check_write_permission ts sp = none)
    (hfile : fsLookup fs sp = some content) :
    (pyCount content old_string = 0 →
        edit_file ts fs path old_string new_string
          = (fs, s!"Error: old_string not found in {path}")) ∧
    (pyCount content old_string > 1 →
        edit_file ts fs path old_string new_string
          = (fs, s!"Error: Multiple occurrences of old_string found in {path}. Please provide more unique context.")) ∧
    (pyCount content old_string = 1 →
        ∃ pre post : List Char,
          content.toList = pre ++ old_string.toList ++ post ∧
          edit_file ts fs path old_string new_string
            = (fsSet fs sp (String.mk (pre ++ new_string.toList ++ post)),
               s!"Successfully edited {path}")) := by
  have hisfile : fsIsFile fs sp = true := fsIsFile_of_lookup hfile
  have hpe : pathExists fs sp = true := by simp [pathExists, hisfile]
  have hstep : edit_file ts fs path old_string new_string =
      (if ¬ pySubstr old_string content then
         (fs, s!"Error: old_string not found in {path}")
       else if pyCount content old_string > 1 then
         (fs, s!"Error: Multiple occurrences of old_string found in {path}. Please provide more unique context.")
       else
         (fsSet fs sp (pyReplace content old_string new_string),
          s!"Successfully edited {path}")) := by
    simp [edit_file, hres, hperm, hpe, hisfile, hfile]
  refine ⟨?_, ?_, ?_⟩
  · intro h0
    have hne : old_string.toList ≠ [] := by
      intro hnil
      simp only [pyCount, pyCountL, hnil, List.isEmpty_nil, if_true] at h0
      omega
    obtain ⟨d, ds, hOld⟩ := List.exists_cons_of_ne_nil hne
    have hcf : pyCountF (d :: ds) (content.toList.length + 1) content.toList = 0 := by
      rw [← pyCount_eq_countF content old_string d ds hOld]
      exact h0
    have hsub : pySubstr old_string content = false := by
      rw [pySubstr, hOld]
      rcases hb : pySubstrL (d :: ds) content.toList
      · rfl
      · exfalso
        have := (pySubstrL_iff_one_le_count d ds (content.toList.length + 1)
          content.toList (by omega)).mp hb
        omega
    rw [hstep]
    simp [hsub]
  · intro h2
    have hsub : pySubstr old_string content = true := by
      cases hOld : old_string.toList with
      | nil => rw [pySubstr, hOld]; exact pySubstrL_nil _
      | cons d ds =>
        rw [pySubstr, hOld]
        apply (pySubstrL_iff_one_le_count d ds (content.toList.length + 1)
          content.toList (by omega)).mpr
        rw [← pyCount_eq_countF content old_string d ds hOld]
        omega
    rw [hstep]
    simp [hsub, h2]
  · intro h1
    have hgt : ¬ pyCount content old_string > 1 := by omega
    have hsub : pySubstr old_string content = true := by
      cases hOld : old_string.toList with
      | nil => rw [pySubstr, hOld]; exact pySubstrL_nil _
      | cons d ds =>
        rw [pySubstr, hOld]
        apply (pySubstrL_iff_one_le_count d ds (content.toList.length + 1)
          content.toList (by omega)).mpr
        rw [← pyCount_eq_countF content old_string d ds hOld]
        omega
    cases hOld : old_string.toList with
    | nil =>
      have hlen0 : content.toList = [] := by
        have h1c := h1
        simp only [pyCount, pyCountL, hOld, List.isEmpty_nil, if_true] at h1c
        have : content.toList.length = 0 := by omega
        exact List.length_eq_zero.mp this
      refine ⟨[], [], by simp only [List.nil_append, List.append_nil]; exact hlen0, ?_⟩
      have hrepl : pyReplace content old_string new_string
          = String.mk ([] ++ new_string.toList ++ []) := by
        simp only [pyReplace, pyReplaceL, hOld, hlen0]
        simp
      rw [hstep]
      simp [hsub, hgt, hrepl]
    | cons d ds =>
      have hcf : pyCountF (d :: ds) (content.toList.length + 1) content.toList = 1 := by
        rw [← pyCount_eq_countF content old_string d ds hOld]
        exact h1
      obtain ⟨pre, post, hdec, hrep⟩ :=
        pyReplaceF_of_count_one d ds new_string.toList
          (content.toList.length + 1) content.toList (by omega) hcf
      refine ⟨pre, post, hdec, ?_⟩
      have hrepl : pyReplace content old_string new_string
          = String.mk (pre ++ new_string.toList ++ post) := by
        simp only [pyReplace, pyReplaceL, hOld, List.isEmpty_cons,
          Bool.false_eq_true, if_false, hrep]
      rw [hstep]
      simp [hsub, hgt, hrepl]


/-- Overwriting an existing file never changes which paths exist. -/
theorem fsIsFile_fsSet (fs : Fs) (p v q : String) :
    fsIsFile (fsSet fs p v) q = fsIsFile fs q := by
  induction fs with
  | nil => rfl
  | cons e es ih =>
    by_cases he : e.1 = p
    · simp [fsSet, fsIsFile, he] at ih ⊢
      rw [ih]
    · simp [fsSet, fsIsFile, he] at ih ⊢
      rw [ih]

/-- C6: the claim says `append_file` fails with a not-found error and never
creates the file when the target does not exist, and in general only ever
modifies files that already exist. The first part is the error branch for
an absent target; the second says a path absent before any `append_file`
call is still absent after it, across all branches. -/
theorem c6_append_file_requires_existing (ts : ToolSetState) (fs : Fs)
    (path content sp : String)
    (hres : resolve_path ts path = .ok sp)
    (hperm : check_write_permission ts sp = none)
    (habsent : pathExists fs sp = false) :
    append_file ts fs path content
      = (fs, s!"Error: File not found: {path}. Use write_file to create new files.") ∧
    (∀ (ts2 : ToolSetState) (fs2 : Fs) (path2 content2 q : String),
        fsIsFile fs2 q = false →
        fsIsFile (append_file ts2 fs2 path2 content2).1 q = false) := by
  constructor
  · simp [append_file, hres, hperm, habsent]
  · intro ts2 fs2 path2 content2 q hq
    cases hres2 : resolve_path ts2 path2 with
    | error e => simpa [append_file, hres2] using hq
    | ok sp2 =>
      cases hperm2 : check_write_permission ts2 sp2 with
      | some err => simpa [append_file, hres2, hperm2] using hq
      | none =>
        by_cases hex : pathExists fs2 sp2
        · by_cases hisf : fsIsFile fs2 sp2
          · simpa [append_file, hres2, hperm2, hex, hisf, fsIsFile_fsSet] using hq
          · simpa [append_file, hres2, hperm2, hex, hisf] using hq
        · simpa [append_file, hres2, hperm2, hex] using hq

/-- Witness for `c6_append_file_requires_existing` at an empty filesystem
and at a fresh path. -/
theorem c6_append_witness :
    append_file ⟨"/work", none, [], "/work"⟩ [] "a.txt" "zz"
      = ([], "Error: File not found: a.txt. Use write_file to create new files.") ∧
    fsIsFile (append_file ⟨"/work", none, [], "/work"⟩ [("/work/a.txt", "x")]
        "a.txt" "y").1 "/work/b.txt" = false :=
  ⟨(c6_append_file_requires_existing ⟨"/work", none, [], "/work"⟩ [] "a.txt" "zz"
      "/work/a.txt" rfl rfl rfl).1,
   (c6_append_file_requires_existing ⟨"/work", none, [], "/work"⟩ [] "x" "y"
      "/work/x" rfl rfl rfl).2 ⟨"/work", none, [], "/work"⟩
      [("/work/a.txt", "x")] "a.txt" "y" "/work/b.txt" rfl⟩

/-- Witness for `c5_edit_file_occurrence_cases`: the unique-occurrence
case on the file content `xAy`. -/
theorem c5_edit_witness :
    ∃ pre post : List Char,
      "xAy".toList = pre ++ "A".toList ++ post ∧
      edit_file ⟨"/work", none, [], "/work"⟩ [("/work/a.txt", "xAy")]
          "a.txt" "A" "B"
        = (fsSet [("/work/a.txt", "xAy")] "/work/a.txt"
             (String.mk (pre ++ "B".toList ++ post)),
           "Successfully edited a.txt") :=
  (c5_edit_file_occurrence_cases ⟨"/work", none, [], "/work"⟩
      [("/work/a.txt", "xAy")] "a.txt" "A" "B" "/work/a.txt" "xAy"
      rfl rfl rfl).2.2 (by decide)


/-! ## C9: fence stripping preserves the parsed value -/



theorem stripTagF_of_noTag (tag : List Char) (ci : Bool) :
    ∀ (f : Nat) (s : List Char), noTagB tag ci s = true →
      ∀ ls, stripTagF tag ci f ls s = s := by
  intro f
  induction f with
  | zero => intro s _ ls; rfl
  | succ f ih =>
    intro s hs ls
    cases s with
    | nil => rfl
    | cons c cs =>
      simp only [noTagB, Bool.and_eq_true, Bool.not_eq_true'] at hs
      simp only [stripTagF, hs.1, Bool.and_false, Bool.false_eq_true, if_false]
      rw [ih cs hs.2]

theorem asciiUpper_backtick : asciiUpper '`' = '`' := by decide

theorem charMatchCI_backtick (ci : Bool) (c : Char) (hc : c ≠ '`') :
    charMatchCI ci '`' c = false := by
  simp [charMatchCI, asciiUpper_backtick, hc]

theorem noTagB_of_no_backtick (ci : Bool) (ts : List Char) :
    ∀ (s : List Char), (∀ c ∈ s, c ≠ '`') →
      noTagB ('`' :: ts) ci s = true := by
  intro s
  induction s with
  | nil => intro _; rfl
  | cons c cs ih =>
    intro h
    have hc : c ≠ '`' := h c (by simp)
    simp only [noTagB, tagMatchB, charMatchCI_backtick ci c hc,
      Bool.false_and, Bool.not_false, Bool.true_and]
    exact ih (fun x hx => h x (by simp [hx]))

theorem flagAfter_cons (ls : Bool) (c : Char) (cs : List Char) :
    flagAfter ls (c :: cs) = flagAfter (c = '\n') cs := rfl

theorem stripTagF_append_bt (ci : Bool) (ts r : List Char) :
    ∀ (s : List Char), (∀ c ∈ s, c ≠ '`') →
      ∀ (f : Nat) (ls : Bool),
        stripTagF ('`' :: ts) ci f ls (s ++ r)
          = s ++ stripTagF ('`' :: ts) ci (f - s.length) (flagAfter ls s) r := by
  intro s
  induction s with
  | nil => intro _ f ls; simp [flagAfter]
  | cons c cs ih =>
    intro h f ls
    have hc : c ≠ '`' := h c (by simp)
    have hcs : ∀ x ∈ cs, x ≠ '`' := fun x hx => h x (by simp [hx])
    cases f with
    | zero =>
      -- fuel exhausted on both sides: both leave the rest untouched
      simp [stripTagF]
    | succ f =>
      simp only [List.cons_append, stripTagF, tagMatchB,
        charMatchCI_backtick ci c hc, Bool.false_and, Bool.and_false,
        Bool.false_eq_true, if_false, List.append_eq]
      rw [ih hcs f (c = '\n')]
      simp [flagAfter_cons, Nat.succ_sub_succ]

theorem stripTagF_append (tag : List Char) (ci : Bool) (r : List Char)
    (hhd : tag.head? = some '`') (s : List Char) (hs : ∀ c ∈ s, c ≠ '`')
    (f : Nat) (ls : Bool) :
    stripTagF tag ci f ls (s ++ r)
      = s ++ stripTagF tag ci (f - s.length) (flagAfter ls s) r := by
  cases tag with
  | nil => simp at hhd
  | cons t ts =>
    have ht : t = '`' := by
      simpa using hhd
    subst ht
    exact stripTagF_append_bt ci ts r s hs f ls

theorem noTagB_append (ci : Bool) (ts : List Char) :
    ∀ (x r : List Char), (∀ c ∈ x, c ≠ '`') →
      noTagB ('`' :: ts) ci r = true →
      noTagB ('`' :: ts) ci (x ++ r) = true := by
  intro x
  induction x with
  | nil => intro r _ hr; exact hr
  | cons c cs ih =>
    intro r h hr
    have hc : c ≠ '`' := h c (by simp)
    simp only [List.cons_append, noTagB, tagMatchB,
      charMatchCI_backtick ci c hc, Bool.false_and, Bool.not_false,
      Bool.true_and]
    exact ih r (fun x hx => h x (by simp [hx])) hr

theorem tagMatchB_self (ci : Bool) :
    ∀ (tag r : List Char), tagMatchB ci tag (tag ++ r) = true := by
  intro tag
  induction tag with
  | nil => intro r; rfl
  | cons t ts ih => intro r; simp [tagMatchB, charMatchCI, ih]

theorem stripTagF_nil (tag : List Char) (ci : Bool) :
    ∀ (f : Nat) (ls : Bool), stripTagF tag ci f ls [] = [] := by
  intro f ls; cases f <;> rfl

theorem dropWSNl_ws_run :
    ∀ (w : List Char), (∀ c ∈ w, pyIsSpace c = true) →
      ∀ (nl : Bool) (c0 : Char) (rest : List Char), pyIsSpace c0 = false →
        ∃ b, dropWSNl (w ++ c0 :: rest) nl = (c0 :: rest, b) := by
  intro w
  induction w with
  | nil => intro _ nl c0 rest h0; exact ⟨nl, by simp [dropWSNl, h0]⟩
  | cons a as ih =>
    intro h nl c0 rest h0
    have ha : pyIsSpace a = true := h a (by simp)
    obtain ⟨b, hb⟩ := ih (fun x hx => h x (by simp [hx])) (a = '\n') c0 rest h0
    exact ⟨b, by simp [dropWSNl, ha, hb]⟩

theorem stripTag_json_tail (f : Nat) (ls : Bool) :
    stripTagF mdTagJson true f ls ('\n' :: mdTagBare) = '\n' :: mdTagBare :=
  stripTagF_of_noTag mdTagJson true f ('\n' :: mdTagBare) (by decide) ls

theorem stripTag_bare_tail (f : Nat) (ls : Bool) :
    stripTagF mdTagBare false (f + 2) ls ('\n' :: mdTagBare) = ['\n'] := by
  have h1 : tagMatchB false ['`', '`', '`'] ['\n', '`', '`', '`'] = false := by
    decide
  have h2 : tagMatchB false ['`', '`', '`'] ['`', '`', '`'] = true := by decide
  show stripTagF ['`', '`', '`'] false (f + 2) ls ['\n', '`', '`', '`'] = ['\n']
  simp [stripTagF, h1, h2, dropWSNl, stripTagF_nil]

theorem tripleAfter_no_backtick (xs : List Char)
    (h : ∀ c ∈ xs, c ≠ '`') : tripleAfter xs = none := by
  cases xs with
  | nil => rfl
  | cons c cs =>
    have hc : c ≠ '`' := h c (by simp)
    simp [tripleAfter, List.isPrefixOf, Ne.symm hc]

theorem trailTry_no_backtick (s : List Char) (h : ∀ c ∈ s, c ≠ '`') :
    ∀ j, trailTry s j = none := by
  intro j
  induction j with
  | zero =>
    simp [trailTry, tripleAfter_no_backtick s h]
  | succ j ih =>
    have hd : ∀ c ∈ s.drop (j + 1), c ≠ '`' :=
      fun c hc => h c (List.mem_of_mem_drop hc)
    simp [trailTry, tripleAfter_no_backtick _ hd, ih]

theorem trailMatch_no_backtick (s : List Char) (h : ∀ c ∈ s, c ≠ '`') :
    trailMatch s = none := by
  simp [trailMatch, trailTry_no_backtick s h]

theorem sub3F_no_backtick :
    ∀ (f : Nat) (s : List Char), (∀ c ∈ s, c ≠ '`') → sub3F f s = s := by
  intro f
  induction f with
  | zero => intro s _; rfl
  | succ f ih =>
    intro s h
    cases s with
    | nil => rfl
    | cons c cs =>
      rw [sub3F]
      rw [trailMatch_no_backtick _ h]
      rw [ih cs (fun x hx => h x (by simp [hx]))]

theorem dropWhile_cons_head (q : Char → Bool) (c : Char) (cs : List Char)
    (h : q c = false) : (c :: cs).dropWhile q = c :: cs := by
  simp [List.dropWhile, h]

theorem dropWhile_head_false (q : Char → Bool) :
    ∀ (l : List Char) (c0 : Char) (cs0 : List Char),
      l.dropWhile q = c0 :: cs0 → q c0 = false := by
  intro l
  induction l with
  | nil => intro c0 cs0 h; simp at h
  | cons a as ih =>
    intro c0 cs0 h
    by_cases ha : q a = true
    · rw [List.dropWhile_cons_of_pos ha] at h
      exact ih c0 cs0 h
    · rw [List.dropWhile_cons_of_neg ha] at h
      injection h with h1 h2
      rw [← h1]
      exact Bool.eq_false_iff.mpr ha

theorem dropWhile_all_append (q : Char → Bool) :
    ∀ (w : List Char), (∀ c ∈ w, q c = true) →
      ∀ r, (w ++ r).dropWhile q = r.dropWhile q := by
  intro w
  induction w with
  | nil => intro _ r; rfl
  | cons a as ih =>
    intro h r
    have ha : q a = true := h a (by simp)
    rw [List.cons_append, List.dropWhile_cons_of_pos ha]
    exact ih (fun x hx => h x (by simp [hx])) r

theorem dropWhile_idem (q : Char → Bool) :
    ∀ (l : List Char), (l.dropWhile q).dropWhile q = l.dropWhile q := by
  intro l
  induction l with
  | nil => rfl
  | cons a as ih =>
    by_cases ha : q a = true
    · rw [List.dropWhile_cons_of_pos ha]
      exact ih
    · rw [List.dropWhile_cons_of_neg ha, List.dropWhile_cons_of_neg ha]

theorem dropWhile_congr_chars (f g : Char → Bool) :
    ∀ (l : List Char), (∀ c ∈ l, f c = g c) →
      l.dropWhile f = l.dropWhile g := by
  intro l
  induction l with
  | nil => intro _; rfl
  | cons a as ih =>
    intro h
    have ha : f a = g a := h a (by simp)
    have ih2 := ih (fun x hx => h x (by simp [hx]))
    by_cases hg : g a = true
    · rw [List.dropWhile_cons_of_pos (ha ▸ hg), List.dropWhile_cons_of_pos hg]
      exact ih2
    · rw [List.dropWhile_cons_of_neg (by rw [ha]; exact hg),
        List.dropWhile_cons_of_neg hg]

theorem mem_dropWhile_ne_backtick {p : List Char} (hbt : ∀ c ∈ p, c ≠ '`') :
    ∀ c ∈ p.dropWhile pyIsSpace, c ≠ '`' :=
  fun c hc => hbt c ((List.dropWhile_sublist pyIsSpace).subset hc)

theorem pyStripL_core_newline (p : List Char)
    (hcore : p.dropWhile pyIsSpace ≠ []) :
    pyStripL (p.dropWhile pyIsSpace ++ ['\n']) = pyStripL p := by
  obtain ⟨c0, cs0, hp0⟩ := List.exists_cons_of_ne_nil hcore
  have h0 : pyIsSpace c0 = false := dropWhile_head_false pyIsSpace p c0 cs0 hp0
  have hnl : pyIsSpace '\n' = true := by decide
  rw [pyStripL, pyStripL]
  rw [hp0, List.cons_append, dropWhile_cons_head pyIsSpace c0 (cs0 ++ ['\n']) h0]
  rw [show (c0 :: (cs0 ++ ['\n'])).reverse = '\n' :: (c0 :: cs0).reverse by
    simp]
  rw [List.dropWhile_cons_of_pos hnl]

theorem trimJsonL_idem (l : List Char) :
    trimJsonL (trimJsonL l) = trimJsonL l := by
  have hstep1 : (trimJsonL l).dropWhile jsonWS = trimJsonL l := by
    cases ht : trimJsonL l with
    | nil => rfl
    | cons c cs =>
      have hpre : trimJsonL l <+: l.dropWhile jsonWS := by
        have hsuf : (l.dropWhile jsonWS).reverse.dropWhile jsonWS
            <:+ (l.dropWhile jsonWS).reverse := List.dropWhile_suffix jsonWS
        have := List.reverse_prefix.mpr hsuf
        simpa [trimJsonL] using this
      rw [ht] at hpre
      obtain ⟨z, hz⟩ := hpre
      have hc0 : jsonWS c = false :=
        dropWhile_head_false jsonWS l c (cs ++ z) (by simpa using hz.symm)
      exact dropWhile_cons_head jsonWS c cs hc0
  calc trimJsonL (trimJsonL l)
      = (((trimJsonL l).dropWhile jsonWS).reverse.dropWhile jsonWS).reverse := rfl
    _ = ((trimJsonL l).reverse.dropWhile jsonWS).reverse := by rw [hstep1]
    _ = ((((l.dropWhile jsonWS).reverse.dropWhile jsonWS).reverse.reverse).dropWhile jsonWS).reverse := rfl
    _ = ((((l.dropWhile jsonWS).reverse.dropWhile jsonWS)).dropWhile jsonWS).reverse := by
        rw [List.reverse_reverse]
    _ = (((l.dropWhile jsonWS).reverse.dropWhile jsonWS)).reverse := by
        rw [dropWhile_idem]
    _ = trimJsonL l := rfl

theorem pyIsSpace_eq_jsonWS {c : Char} (h1 : c ≠ '\x0b') (h2 : c ≠ '\x0c') :
    pyIsSpace c = jsonWS c := by
  simp [pyIsSpace, jsonWS, h1, h2]

theorem pyStripL_eq_trimJsonL (l : List Char)
    (hv : ∀ c ∈ l, c ≠ '\x0b' ∧ c ≠ '\x0c') :
    pyStripL l = trimJsonL l := by
  have hagree : ∀ c ∈ l, pyIsSpace c = jsonWS c :=
    fun c hc => pyIsSpace_eq_jsonWS (hv c hc).1 (hv c hc).2
  have h1 : l.dropWhile pyIsSpace = l.dropWhile jsonWS :=
    dropWhile_congr_chars _ _ l hagree
  have h2 : (l.dropWhile jsonWS).reverse.dropWhile pyIsSpace
      = (l.dropWhile jsonWS).reverse.dropWhile jsonWS := by
    apply dropWhile_congr_chars
    intro c hc
    apply hagree
    have hc2 : c ∈ l.dropWhile jsonWS := List.mem_reverse.mp hc
    exact (List.dropWhile_sublist jsonWS).subset hc2
  rw [pyStripL, trimJsonL, h1, h2]

theorem trimJsonL_pyStripL (l : List Char)
    (hv : ∀ c ∈ l, c ≠ '\x0b' ∧ c ≠ '\x0c') :
    trimJsonL (pyStripL l) = trimJsonL l := by
  rw [pyStripL_eq_trimJsonL l hv, trimJsonL_idem]

theorem stripMarkdownL_wrapJson (p : List Char)
    (hbt : ∀ c ∈ p, c ≠ '`') (hcore : p.dropWhile pyIsSpace ≠ []) :
    stripMarkdownL (mdTagJson ++ '\n' :: (p ++ '\n' :: mdTagBare))
      = pyStripL p := by
  obtain ⟨c0, cs0, hp0⟩ := List.exists_cons_of_ne_nil hcore
  have h0 : pyIsSpace c0 = false := dropWhile_head_false pyIsSpace p c0 cs0 hp0
  have hb0 : ∀ c ∈ p.dropWhile pyIsSpace, c ≠ '`' := mem_dropWhile_ne_backtick hbt
  have hwchars : ∀ c ∈ ('\n' :: p.takeWhile pyIsSpace), pyIsSpace c = true := by
    intro c hc
    rcases List.mem_cons.mp hc with rfl | hc2
    · decide
    · exact List.mem_takeWhile_imp hc2
  obtain ⟨b, hb⟩ := dropWSNl_ws_run ('\n' :: p.takeWhile pyIsSpace) hwchars
    false c0 (cs0 ++ '\n' :: mdTagBare) h0
  have hX : '\n' :: (p ++ '\n' :: mdTagBare)
      = ('\n' :: p.takeWhile pyIsSpace) ++ (c0 :: (cs0 ++ '\n' :: mdTagBare)) := by
    conv_lhs => rw [show p = p.takeWhile pyIsSpace ++ p.dropWhile pyIsSpace from
      (List.takeWhile_append_dropWhile pyIsSpace p).symm]
    simp [hp0, List.append_assoc]
  -- Step A: the first substitution eats the fence and the leading whitespace
  have hs1 : ∀ (n : Nat),
      stripTagF mdTagJson true (n + 1) true
          (mdTagJson ++ '\n' :: (p ++ '\n' :: mdTagBare))
        = p.dropWhile pyIsSpace ++ '\n' :: mdTagBare := by
    intro n
    have hm : tagMatchB true mdTagJson
        ('`' :: '`' :: '`' :: 'j' :: 's' :: 'o' :: 'n' ::
          ('\n' :: (p ++ '\n' :: mdTagBare))) = true :=
      tagMatchB_self true mdTagJson ('\n' :: (p ++ '\n' :: mdTagBare))
    show stripTagF mdTagJson true (n + 1) true
        ('`' :: '`' :: '`' :: 'j' :: 's' :: 'o' :: 'n' ::
          ('\n' :: (p ++ '\n' :: mdTagBare)))
      = p.dropWhile pyIsSpace ++ '\n' :: mdTagBare
    rw [stripTagF]
    rw [hm]
    simp only [Bool.and_self, if_true]
    show stripTagF mdTagJson true n
        (dropWSNl ('\n' :: (p ++ '\n' :: mdTagBare)) false).2
        (dropWSNl ('\n' :: (p ++ '\n' :: mdTagBare)) false).1
      = p.dropWhile pyIsSpace ++ '\n' :: mdTagBare
    rw [hX, hb]
    show stripTagF mdTagJson true n b (c0 :: (cs0 ++ '\n' :: mdTagBare))
      = p.dropWhile pyIsSpace ++ '\n' :: mdTagBare
    rw [show c0 :: (cs0 ++ '\n' :: mdTagBare)
        = (p.dropWhile pyIsSpace) ++ '\n' :: mdTagBare by rw [hp0]; rfl]
    rw [stripTagF_append mdTagJson true ('\n' :: mdTagBare) rfl
      (p.dropWhile pyIsSpace) hb0 n b]
    rw [stripTag_json_tail]
  -- Step B: the second substitution removes the trailing fence
  have hs2 : stripTagF mdTagBare false
      ((p.dropWhile pyIsSpace ++ '\n' :: mdTagBare).length + 1) true
      (p.dropWhile pyIsSpace ++ '\n' :: mdTagBare)
      = p.dropWhile pyIsSpace ++ ['\n'] := by
    rw [stripTagF_append mdTagBare false ('\n' :: mdTagBare) rfl
      (p.dropWhile pyIsSpace) hb0 _ true]
    have harith : (p.dropWhile pyIsSpace ++ '\n' :: mdTagBare).length + 1
        - (p.dropWhile pyIsSpace).length = 3 + 2 := by
      simp [mdTagBare]
      omega
    rw [harith, stripTag_bare_tail]
  -- Step C: the trailing-fence scan finds nothing
  have hs3 : sub3F ((p.dropWhile pyIsSpace ++ ['\n']).length + 1)
      (p.dropWhile pyIsSpace ++ ['\n']) = p.dropWhile pyIsSpace ++ ['\n'] := by
    apply sub3F_no_backtick
    intro c hc
    rcases List.mem_append.mp hc with h1 | h2
    · exact hb0 c h1
    · rcases List.mem_singleton.mp h2 with rfl
      decide
  -- Assemble
  show pyStripL (sub3F _ (stripTagF mdTagBare false _ true
      (stripTagF mdTagJson true _ true
        (mdTagJson ++ '\n' :: (p ++ '\n' :: mdTagBare))))) = pyStripL p
  rw [hs1, hs2, hs3, pyStripL_core_newline p hcore]

theorem stripMarkdownL_wrapBare (p : List Char)
    (hbt : ∀ c ∈ p, c ≠ '`') (hcore : p.dropWhile pyIsSpace ≠ []) :
    stripMarkdownL (mdTagBare ++ '\n' :: (p ++ '\n' :: mdTagBare))
      = pyStripL p := by
  obtain ⟨c0, cs0, hp0⟩ := List.exists_cons_of_ne_nil hcore
  have h0 : pyIsSpace c0 = false := dropWhile_head_false pyIsSpace p c0 cs0 hp0
  have hb0 : ∀ c ∈ p.dropWhile pyIsSpace, c ≠ '`' := mem_dropWhile_ne_backtick hbt
  have hwchars : ∀ c ∈ ('\n' :: p.takeWhile pyIsSpace), pyIsSpace c = true := by
    intro c hc
    rcases List.mem_cons.mp hc with rfl | hc2
    · decide
    · exact List.mem_takeWhile_imp hc2
  obtain ⟨b, hb⟩ := dropWSNl_ws_run ('\n' :: p.takeWhile pyIsSpace) hwchars
    false c0 (cs0 ++ '\n' :: mdTagBare) h0
  have hX : '\n' :: (p ++ '\n' :: mdTagBare)
      = ('\n' :: p.takeWhile pyIsSpace) ++ (c0 :: (cs0 ++ '\n' :: mdTagBare)) := by
    conv_lhs => rw [show p = p.takeWhile pyIsSpace ++ p.dropWhile pyIsSpace from
      (List.takeWhile_append_dropWhile pyIsSpace p).symm]
    simp [hp0, List.append_assoc]
  have hlp : (p.takeWhile pyIsSpace).length + (p.dropWhile pyIsSpace).length
      = p.length := by
    conv_rhs => rw [show p = p.takeWhile pyIsSpace ++ p.dropWhile pyIsSpace from
      (List.takeWhile_append_dropWhile pyIsSpace p).symm]
    rw [List.length_append]
  -- Step A: the json-tagged pattern matches nowhere in the bare-fenced text
  have hnom : noTagB mdTagJson true
      (mdTagBare ++ '\n' :: (p ++ '\n' :: mdTagBare)) = true := by
    have hbb : charMatchCI true '`' '`' = true := by decide
    have hj : charMatchCI true 'j' '\n' = false := by decide
    have hb3 : charMatchCI true '`' '\n' = false := by decide
    have htail : noTagB mdTagJson true ('\n' :: mdTagBare) = true := by decide
    have hmid : noTagB mdTagJson true (p ++ '\n' :: mdTagBare) = true :=
      noTagB_append true ['`', '`', 'j', 's', 'o', 'n'] p ('\n' :: mdTagBare)
        hbt htail
    have m0 : tagMatchB true mdTagJson
        ('`' :: '`' :: '`' :: '\n' :: (p ++ '\n' :: mdTagBare)) = false := by
      simp [mdTagJson, tagMatchB, hbb, hj]
    have m1 : tagMatchB true mdTagJson
        ('`' :: '`' :: '\n' :: (p ++ '\n' :: mdTagBare)) = false := by
      simp [mdTagJson, tagMatchB, hbb, hb3]
    have m2 : tagMatchB true mdTagJson
        ('`' :: '\n' :: (p ++ '\n' :: mdTagBare)) = false := by
      simp [mdTagJson, tagMatchB, hbb, hb3]
    show noTagB mdTagJson true
        ('`' :: '`' :: '`' :: '\n' :: (p ++ '\n' :: mdTagBare)) = true
    have m3 : tagMatchB true mdTagJson ('\n' :: (p ++ '\n' :: mdTagBare))
        = false := by
      simp [mdTagJson, tagMatchB, hb3]
    simp only [noTagB, m0, m1, m2, m3, Bool.not_false, Bool.true_and]
    exact hmid
  have hs1id : stripTagF mdTagJson true
      ((mdTagBare ++ '\n' :: (p ++ '\n' :: mdTagBare)).length + 1) true
      (mdTagBare ++ '\n' :: (p ++ '\n' :: mdTagBare))
      = mdTagBare ++ '\n' :: (p ++ '\n' :: mdTagBare) :=
    stripTagF_of_noTag mdTagJson true _ _ hnom true
  -- Step B: the second substitution removes both fences and the leading whitespace
  have hs2gen : ∀ n : Nat,
      n - (p.dropWhile pyIsSpace).length = ((p.takeWhile pyIsSpace).length + 6) + 2 →
      stripTagF mdTagBare false (n + 1) true
        (mdTagBare ++ '\n' :: (p ++ '\n' :: mdTagBare))
        = p.dropWhile pyIsSpace ++ ['\n'] := by
    intro n harith
    have hm2 : tagMatchB false mdTagBare
        ('`' :: '`' :: '`' :: ('\n' :: (p ++ '\n' :: mdTagBare))) = true :=
      tagMatchB_self false mdTagBare ('\n' :: (p ++ '\n' :: mdTagBare))
    show stripTagF mdTagBare false (n + 1) true
        ('`' :: '`' :: '`' :: ('\n' :: (p ++ '\n' :: mdTagBare)))
      = p.dropWhile pyIsSpace ++ ['\n']
    rw [stripTagF]
    rw [hm2]
    simp only [Bool.and_self, if_true]
    show stripTagF mdTagBare false n
        (dropWSNl ('\n' :: (p ++ '\n' :: mdTagBare)) false).2
        (dropWSNl ('\n' :: (p ++ '\n' :: mdTagBare)) false).1
      = p.dropWhile pyIsSpace ++ ['\n']
    rw [hX, hb]
    show stripTagF mdTagBare false n b (c0 :: (cs0 ++ '\n' :: mdTagBare))
      = p.dropWhile pyIsSpace ++ ['\n']
    rw [show c0 :: (cs0 ++ '\n' :: mdTagBare)
        = (p.dropWhile pyIsSpace) ++ '\n' :: mdTagBare by rw [hp0]; rfl]
    rw [stripTagF_append mdTagBare false ('\n' :: mdTagBare) rfl
      (p.dropWhile pyIsSpace) hb0 n b]
    rw [harith, stripTag_bare_tail]
  have hs2 : stripTagF mdTagBare false
      ((mdTagBare ++ '\n' :: (p ++ '\n' :: mdTagBare)).length + 1) true
      (mdTagBare ++ '\n' :: (p ++ '\n' :: mdTagBare))
      = p.dropWhile pyIsSpace ++ ['\n'] := by
    apply hs2gen
    simp [mdTagBare]
    omega
  have hs3 : sub3F ((p.dropWhile pyIsSpace ++ ['\n']).length + 1)
      (p.dropWhile pyIsSpace ++ ['\n']) = p.dropWhile pyIsSpace ++ ['\n'] := by
    apply sub3F_no_backtick
    intro c hc
    rcases List.mem_append.mp hc with h1 | h2
    · exact hb0 c h1
    · rcases List.mem_singleton.mp h2 with rfl
      decide
  show pyStripL (sub3F _ (stripTagF mdTagBare false _ true
      (stripTagF mdTagJson true _ true
        (mdTagBare ++ '\n' :: (p ++ '\n' :: mdTagBare))))) = pyStripL p
  rw [hs1id, hs2, hs3, pyStripL_core_newline p hcore]

theorem toList_wrapJson (p : String) :
    ("```json\n" ++ p ++ "\n```").toList
      = mdTagJson ++ '\n' :: (p.toList ++ '\n' :: mdTagBare) := by
  have h1 : ("```json\n" ++ p ++ "\n```").toList
      = "```json\n".toList ++ p.toList ++ "\n```".toList := by
    simp [String.toList, String.data_append]
  rw [h1]
  rw [show "```json\n".toList = mdTagJson ++ ['\n'] from by decide]
  rw [show "\n```".toList = '\n' :: mdTagBare from by decide]
  simp

theorem toList_wrapBare (p : String) :
    ("```\n" ++ p ++ "\n```").toList
      = mdTagBare ++ '\n' :: (p.toList ++ '\n' :: mdTagBare) := by
  have h1 : ("```\n" ++ p ++ "\n```").toList
      = "```\n".toList ++ p.toList ++ "\n```".toList := by
    simp [String.toList, String.data_append]
  rw [h1]
  rw [show "```\n".toList = mdTagBare ++ ['\n'] from by decide]
  rw [show "\n```".toList = '\n' :: mdTagBare from by decide]
  simp

/-- C9: the claim says a structured argument payload wrapped in a markdown
fenced code block (with or without a language tag) parses, after the
fence-stripping step, to the same structured value as the unwrapped
payload. The payload is any JSON document without backticks (backtick-free
covers every payload the repair targets; the fence patterns only anchor on
backticks) and without vertical-tab or form-feed characters, with at least
one non-whitespace character. -/
theorem c9_fenced_payload_parses_same (p : String) (v : Json)
    (hbt : ∀ c ∈ p.toList, c ≠ '`')
    (hvt : ∀ c ∈ p.toList, c ≠ '\x0b' ∧ c ≠ '\x0c')
    (hcore : p.toList.dropWhile pyIsSpace ≠ [])
    (hp : jsonLoads p = some v) :
    jsonLoads (stripMarkdown ("```json\n" ++ p ++ "\n```")) = some v ∧
    jsonLoads (stripMarkdown ("```\n" ++ p ++ "\n```")) = some v := by
  have hw1 : stripMarkdown ("```json\n" ++ p ++ "\n```") = pyStrip p := by
    rw [stripMarkdown, toList_wrapJson,
      stripMarkdownL_wrapJson p.toList hbt hcore]
    rfl
  have hw2 : stripMarkdown ("```\n" ++ p ++ "\n```") = pyStrip p := by
    rw [stripMarkdown, toList_wrapBare,
      stripMarkdownL_wrapBare p.toList hbt hcore]
    rfl
  have htrim : trimJsonL ((pyStrip p).toList) = trimJsonL p.toList := by
    show trimJsonL (pyStripL p.toList) = trimJsonL p.toList
    exact trimJsonL_pyStripL p.toList hvt
  have hloads : jsonLoads (pyStrip p) = jsonLoads p := by
    simp only [jsonLoads]
    rw [htrim]
  exact ⟨by rw [hw1, hloads, hp], by rw [hw2, hloads, hp]⟩

/-- Witness for `c9_fenced_payload_parses_same` at a concrete payload. -/
theorem c9_fenced_payload_witness :
    jsonLoads "\x7b\"path\": \"a.txt\"\x7d" = some (.obj [("path", .str "a.txt")]) ∧
    jsonLoads (stripMarkdown ("```json\n" ++ "\x7b\"path\": \"a.txt\"\x7d" ++ "\n```"))
      = some (.obj [("path", .str "a.txt")]) ∧
    jsonLoads (stripMarkdown ("```\n" ++ "\x7b\"path\": \"a.txt\"\x7d" ++ "\n```"))
      = some (.obj [("path", .str "a.txt")]) := by
  refine ⟨by rfl, ?_, ?_⟩
  · exact (c9_fenced_payload_parses_same "\x7b\"path\": \"a.txt\"\x7d" (.obj [("path", .str "a.txt")])
      (by decide) (by decide) (by decide) (by rfl)).1
  · exact (c9_fenced_payload_parses_same "\x7b\"path\": \"a.txt\"\x7d" (.obj [("path", .str "a.txt")])
      (by decide) (by decide) (by decide) (by rfl)).2

end SMC
